import Mathlib

/-!
Shallow embedding of `src/pipecat/audio/filters/aicoustics_filter.py`.

The Python module defines two components:

* `AiCousticsProcessorManager` — a class-level registry mapping the key
  `(sample_rate, num_channels, num_frames)` to a shared `RealTimeL`
  engine object, creating the object on first lookup;
* `AiCousticsFilter` — an audio filter that converts interleaved 16-bit
  PCM bytes to normalized float32, de-interleaves per channel, buffers,
  extracts `num_frames`-sized chunks, hands each chunk to the engine, and
  converts the processed chunks back to 16-bit PCM bytes.

Modelling conventions:

* numpy float32 values are modelled by `ℚ`.  Every arithmetic step the
  filter itself performs (division by the power of two 32768.0 on int16
  values, multiplication by 32768.0, comparisons in `np.clip`) is exact
  in float32, so `ℚ` is a faithful model of the filter's own arithmetic;
  the engine's outputs are opaque and are quantified over.
* The opaque `RealTimeL.process_deinterleaved` call is a parameter
  `proc : List (List ℚ) → List (List ℚ)` of `filterBytes`; the in-place
  numpy mutation is modelled by using `proc padded` as the processed
  chunk.  Shape preservation (numpy in-place processing cannot change
  the array shape) is taken as a hypothesis where needed.
* A 2-D numpy array of shape (channels, n) is a `List (List ℚ)` of rows;
  `cols` is `shape[1]` (the length of the first row) and `bufSize` is
  `.size` (the total element count).
* Python object identity of `RealTimeL` instances is modelled by a
  `handle_id` field drawn from a counter that increments at each
  construction, so reference equality is equality of `handle_id`.
* Raw byte strings are `List Nat`, each entry one byte (callers supply
  values < 256; `np.frombuffer` reads pairs as little-endian int16).
* `while self._buffer.shape[1] >= self._num_frames` diverges in Python
  when `num_frames = 0`; the model's loop additionally stops in that
  case (`0 < num_frames` guards the iteration), which is irrelevant to
  every claim since all involve a positive frame size.
-/

namespace AiCoustics

/-- Model of an `aicoustics.RealTimeL` engine object.  The constructor
arguments are recorded as fields; `handle_id` models object identity. -/
structure RealTimeL where
  license_key : String
  num_channels : Nat
  sample_rate : Nat
  num_frames : Nat
  handle_id : Nat
deriving DecidableEq, Repr

/-- State of the class-level dictionary `AiCousticsProcessorManager._instances`
together with the fresh-identity counter for constructed objects. -/
structure ManagerState where
  instances : List ((Nat × Nat × Nat) × RealTimeL)
  next_id : Nat
deriving DecidableEq, Repr

/-- The empty registry: `_instances = {}`. -/
def ManagerState.empty : ManagerState :=
  { instances := [], next_id := 0 }

/-- Python dictionary lookup `cls._instances[key]` / `key in cls._instances`,
modelled on the association list. -/
def findInstance (key : Nat × Nat × Nat) :
    List ((Nat × Nat × Nat) × RealTimeL) → Option RealTimeL
  | [] => none
  | p :: rest => if p.1 = key then some p.2 else findInstance key rest

/-- Model of `AiCousticsProcessorManager.get_processor`: look up
`key = (sample_rate, num_channels, num_frames)`; when absent, construct a
`RealTimeL` with the given license key and store it under the key. -/
def get_processor (st : ManagerState) (license_key : String)
    (sample_rate num_channels num_frames : Nat) : ManagerState × RealTimeL :=
  let key := (sample_rate, num_channels, num_frames)
  match findInstance key st.instances with
  | some h => (st, h)
  | none =>
      let h : RealTimeL :=
        { license_key := license_key
          num_channels := num_channels
          sample_rate := sample_rate
          num_frames := num_frames
          handle_id := st.next_id }
      ({ instances := st.instances ++ [(key, h)], next_id := st.next_id + 1 }, h)

/-- State of one `AiCousticsFilter` instance (its `self._*` attributes). -/
structure FilterState where
  license_key : String
  channels : Nat
  num_frames : Nat
  enhancement_strength : ℚ
  sample_rate : Nat
  filtering : Bool
  enhancer : Option RealTimeL
  buffer : List (List ℚ)
deriving DecidableEq, Repr

/-- Model of `AiCousticsFilter.__init__` (defaults in Python:
`channels=1`, `num_frames=512`, `enhancement_strength=1.0`).  The strength
is stored as `max(0.0, min(1.0, enhancement_strength))`. -/
def initFilter (license_key : String) (channels num_frames : Nat)
    (enhancement_strength : ℚ) : FilterState :=
  { license_key := license_key
    channels := channels
    num_frames := num_frames
    enhancement_strength := max 0 (min 1 enhancement_strength)
    sample_rate := 0
    filtering := true
    enhancer := none
    buffer := [] }

/-- Model of `AiCousticsFilter.start`: record the transport sample rate and
bind the engine handle obtained from the manager.  (The strength push and
logging act only on the opaque engine.) -/
def start (mgr : ManagerState) (s : FilterState) (sample_rate : Nat) :
    ManagerState × FilterState :=
  let p := get_processor mgr s.license_key sample_rate s.channels s.num_frames
  (p.1, { s with sample_rate := sample_rate, enhancer := some p.2 })

/-- Model of `AiCousticsFilter.stop`: drop the handle and clear the buffer. -/
def stop (s : FilterState) : FilterState :=
  { s with enhancer := none, buffer := [] }

/-- Control frames accepted by `process_frame`: `FilterEnableFrame(enable)`
and `FilterUpdateSettingsFrame(settings)` with a string-keyed settings map. -/
inductive ControlFrame where
  | enable : Bool → ControlFrame
  | updateSettings : List (String × ℚ) → ControlFrame

/-- Model of `AiCousticsFilter.process_frame`: an enable frame sets the
pass-through flag; a settings frame carrying `enhancement_strength` stores
the clamped value (the push to the engine acts only on the opaque engine). -/
def process_frame (s : FilterState) (frame : ControlFrame) : FilterState :=
  match frame with
  | .enable e => { s with filtering := e }
  | .updateSettings settings =>
      match settings.lookup "enhancement_strength" with
      | some v => { s with enhancement_strength := max 0 (min 1 v) }
      | none => s

/-- Decoding of two consecutive bytes as one little-endian signed 16-bit
sample, as `np.frombuffer(audio, dtype=np.int16)` does (bytes are < 256). -/
def int16OfBytes (b0 b1 : Nat) : Int :=
  let u := b0 + 256 * b1
  if u < 32768 then (u : Int) else (u : Int) - 65536

/-- Decoding of a byte string into int16 samples, pairwise little-endian
(valid PCM byte strings have even length; a trailing odd byte, on which
`np.frombuffer` raises, is ignored here). -/
def bytesToInt16 : List Nat → List Int
  | [] => []
  | [_] => []
  | b0 :: b1 :: rest => int16OfBytes b0 b1 :: bytesToInt16 rest

/-- Encoding of one int16 value back into two little-endian bytes, as
`.tobytes()` serializes an `np.int16` element. -/
def int16ToBytes (v : Int) : List Nat :=
  let u := (v % 65536).toNat
  [u % 256, u / 256]

/-- Normalization `data.astype(np.float32) / 32768.0` (exact in float32). -/
def normalize (samples : List Int) : List ℚ :=
  samples.map (fun v : Int => (v : ℚ) / 32768)

/-- The column count `shape[1]` of a (channels, n) array. -/
def cols (buffer : List (List ℚ)) : Nat :=
  (buffer.headD []).length

/-- The total element count `.size` of the buffer array. -/
def bufSize (buffer : List (List ℚ)) : Nat :=
  (buffer.map List.length).sum

/-- Row lengths of a 2-D array (its shape, row by row). -/
def shape (m : List (List ℚ)) : List Nat :=
  m.map List.length

/-- Reshaping to (channels, samples): `data.reshape(1, -1)` for mono, and
`data.reshape(-1, channels).T` (de-interleaving) otherwise. -/
def toChannels (channels : Nat) (data : List ℚ) : List (List ℚ) :=
  if channels = 1 then [data]
  else (List.range channels).map fun c =>
    (List.range (data.length / channels)).map fun j => data.getD (j * channels + c) 0

/-- Buffer append: `data.copy()` when `self._buffer.size == 0`, otherwise
`np.concatenate([self._buffer, data], axis=1)`. -/
def appendBuffer (buffer data : List (List ℚ)) : List (List ℚ) :=
  if bufSize buffer = 0 then data
  else List.zipWith (fun a b => a ++ b) buffer data

/-- Zero padding of one row: `padded_chunk = np.zeros(...)` followed by
`padded_chunk[:, :chunk.shape[1]] = chunk`, row by row. -/
def padRow (num_frames : Nat) (row : List ℚ) : List ℚ :=
  row ++ List.replicate (num_frames - row.length) 0

/-- Concatenation of the collected output chunks along the time axis,
`np.concatenate(output_chunks, axis=1)`. -/
def concatChunks : List (List (List ℚ)) → List (List ℚ)
  | [] => []
  | [c] => c
  | c :: cs => List.zipWith (fun a b => a ++ b) c (concatChunks cs)

/-- The chunk-extraction loop `while self._buffer.shape[1] >= self._num_frames`:
take the first `num_frames` columns as the chunk, drop them from the buffer,
zero-pad the chunk, process it with the engine, and keep the first
`chunk.shape[1]` columns of the processed chunk.  Returns the collected
output chunks and the final buffer. -/
def chunkLoop (proc : List (List ℚ) → List (List ℚ)) (num_frames : Nat)
    (buffer : List (List ℚ)) : List (List (List ℚ)) × List (List ℚ) :=
  if h : 0 < num_frames ∧ num_frames ≤ cols buffer then
    let chunk := buffer.map (List.take num_frames)
    let rest := buffer.map (List.drop num_frames)
    let padded := chunk.map (padRow num_frames)
    let processed := proc padded
    let outChunk := processed.map (List.take (cols chunk))
    let p := chunkLoop proc num_frames rest
    (outChunk :: p.1, p.2)
  else ([], buffer)
termination_by cols buffer
decreasing_by
  rcases h with ⟨h1, h2⟩
  cases buffer with
  | nil => simp [cols] at h2; omega
  | cons r rs => simp [cols] at h2 ⊢; omega

/-- Truncation toward zero, the rounding `astype(np.int16)` applies to an
in-range float value. -/
def truncQ (q : ℚ) : Int :=
  if 0 ≤ q then ⌊q⌋ else ⌈q⌉

/-- Scaling and clamping of one output sample:
`np.clip(output * 32768.0, -32768, 32767).astype(np.int16)` elementwise. -/
def clipToInt16 (q : ℚ) : Int :=
  truncQ (min (max (q * 32768) (-32768)) 32767)

/-- Interleaving back to the wire layout: `output.flatten()` for mono
(row-major flatten) and `output.T.flatten()` (column-major) otherwise. -/
def fromChannels (channels : Nat) (output : List (List ℚ)) : List ℚ :=
  if channels = 1 then output.flatten
  else
    List.flatten ((List.range (cols output)).map fun j =>
      (List.range channels).map fun c => (output.getD c []).getD j 0)

/-- Serialization of the processed samples:
`np.clip(output * 32768.0, -32768, 32767).astype(np.int16)` then `.tobytes()`. -/
def encodeOutput (flat : List ℚ) : List Nat :=
  ((flat.map clipToInt16).map int16ToBytes).flatten

/-- Model of `AiCousticsFilter.filter`.  Returns the updated filter state
and the returned byte string.  `proc` is the opaque engine call
`self._enhancer.process_deinterleaved`. -/
def filterBytes (proc : List (List ℚ) → List (List ℚ))
    (s : FilterState) (audio : List Nat) : FilterState × List Nat :=
  if !s.filtering || s.enhancer.isNone then (s, audio)
  else
    let data := normalize (bytesToInt16 audio)
    let shaped := toChannels s.channels data
    let buf := appendBuffer s.buffer shaped
    let p := chunkLoop proc s.num_frames buf
    if p.1.isEmpty then ({ s with buffer := p.2 }, audio)
    else
      let output := concatChunks p.1
      let flat := fromChannels s.channels output
      ({ s with buffer := p.2 }, encodeOutput flat)

theorem cols_map_drop (n : Nat) (buffer : List (List ℚ)) :
    cols (buffer.map (List.drop n)) = cols buffer - n := by
  cases buffer <;> simp [cols]

theorem cols_map_take (n : Nat) (buffer : List (List ℚ)) (h : n ≤ cols buffer) :
    cols (buffer.map (List.take n)) = n := by
  cases buffer with
  | nil => simp [cols] at h ⊢; omega
  | cons r rs => simp [cols] at h ⊢; omega

theorem chunkLoop_no_chunk (proc : List (List ℚ) → List (List ℚ)) (nf : Nat)
    (buffer : List (List ℚ)) (hlt : cols buffer < nf) :
    chunkLoop proc nf buffer = ([], buffer) := by
  rw [chunkLoop, dif_neg (show ¬(0 < nf ∧ nf ≤ cols buffer) by omega)]

theorem chunkLoop_step (proc : List (List ℚ) → List (List ℚ)) (nf : Nat)
    (buffer : List (List ℚ)) (h1 : 0 < nf) (h2 : nf ≤ cols buffer) :
    chunkLoop proc nf buffer =
      ((proc ((buffer.map (List.take nf)).map (padRow nf))).map
          (List.take (cols (buffer.map (List.take nf))))
        :: (chunkLoop proc nf (buffer.map (List.drop nf))).1,
       (chunkLoop proc nf (buffer.map (List.drop nf))).2) := by
  conv_lhs => rw [chunkLoop]
  rw [dif_pos ⟨h1, h2⟩]

theorem chunkLoop_buffer_lt (proc : List (List ℚ) → List (List ℚ)) (nf : Nat)
    (hnf : 0 < nf) :
    ∀ (n : Nat) (buffer : List (List ℚ)), cols buffer ≤ n →
      cols (chunkLoop proc nf buffer).2 < nf := by
  intro n
  induction n with
  | zero =>
      intro buffer hb
      rw [chunkLoop_no_chunk proc nf buffer (by omega)]
      show cols buffer < nf
      omega
  | succ n ih =>
      intro buffer hb
      by_cases hge : nf ≤ cols buffer
      · rw [chunkLoop_step proc nf buffer hnf hge]
        exact ih _ (by rw [cols_map_drop]; omega)
      · rw [chunkLoop_no_chunk proc nf buffer (by omega)]
        show cols buffer < nf
        omega

/-- Well-formedness of the registry: every stored handle was constructed
from the components of its own key. -/
def ManagerWF (st : ManagerState) : Prop :=
  ∀ p ∈ st.instances,
    p.2.sample_rate = p.1.1 ∧ p.2.num_channels = p.1.2.1 ∧ p.2.num_frames = p.1.2.2

theorem findInstance_mem {key : Nat × Nat × Nat}
    {l : List ((Nat × Nat × Nat) × RealTimeL)} {h : RealTimeL}
    (hf : findInstance key l = some h) : (key, h) ∈ l := by
  induction l with
  | nil => simp [findInstance] at hf
  | cons p rest ih =>
      rcases p with ⟨k, v⟩
      by_cases hp : k = key
      · simp [findInstance, hp] at hf
        simp [hp, hf]
      · simp [findInstance, hp] at hf
        exact List.mem_cons_of_mem _ (ih hf)

theorem findInstance_append_self (key : Nat × Nat × Nat)
    (l : List ((Nat × Nat × Nat) × RealTimeL)) (h : RealTimeL)
    (hnone : findInstance key l = none) :
    findInstance key (l ++ [(key, h)]) = some h := by
  induction l with
  | nil => simp [findInstance]
  | cons p rest ih =>
      by_cases hp : p.1 = key
      · simp [findInstance, hp] at hnone
      · simp [findInstance, hp, List.cons_append] at hnone ⊢
        exact ih hnone

theorem get_processor_hit (st : ManagerState) (lk : String) (sr ch nf : Nat)
    (h : RealTimeL) (hf : findInstance (sr, ch, nf) st.instances = some h) :
    get_processor st lk sr ch nf = (st, h) := by
  unfold get_processor
  simp [hf]

theorem get_processor_miss (st : ManagerState) (lk : String) (sr ch nf : Nat)
    (hf : findInstance (sr, ch, nf) st.instances = none) :
    get_processor st lk sr ch nf =
      ({ instances := st.instances ++ [((sr, ch, nf),
            { license_key := lk, num_channels := ch, sample_rate := sr,
              num_frames := nf, handle_id := st.next_id })]
         next_id := st.next_id + 1 },
       { license_key := lk, num_channels := ch, sample_rate := sr,
         num_frames := nf, handle_id := st.next_id }) := by
  unfold get_processor
  simp [hf]

theorem get_processor_finds (st : ManagerState) (lk : String) (sr ch nf : Nat) :
    findInstance (sr, ch, nf) (get_processor st lk sr ch nf).1.instances
      = some (get_processor st lk sr ch nf).2 := by
  cases hfi : findInstance (sr, ch, nf) st.instances with
  | some h => rw [get_processor_hit st lk sr ch nf h hfi]; exact hfi
  | none =>
      rw [get_processor_miss st lk sr ch nf hfi]
      exact findInstance_append_self _ _ _ hfi

theorem get_processor_wf (st : ManagerState) (lk : String) (sr ch nf : Nat)
    (hwf : ManagerWF st) : ManagerWF (get_processor st lk sr ch nf).1 := by
  cases hfi : findInstance (sr, ch, nf) st.instances with
  | some h => rw [get_processor_hit st lk sr ch nf h hfi]; exact hwf
  | none =>
      rw [get_processor_miss st lk sr ch nf hfi]
      intro p hp
      rcases List.mem_append.mp hp with hp | hp
      · exact hwf p hp
      · simp at hp
        subst hp
        exact ⟨rfl, rfl, rfl⟩

theorem get_processor_num_frames (st : ManagerState) (lk : String) (sr ch nf : Nat)
    (hwf : ManagerWF st) : (get_processor st lk sr ch nf).2.num_frames = nf := by
  cases hfi : findInstance (sr, ch, nf) st.instances with
  | some h =>
      have hm := hwf _ (findInstance_mem hfi)
      rw [get_processor_hit st lk sr ch nf h hfi]
      exact hm.2.2
  | none => rw [get_processor_miss st lk sr ch nf hfi]

/-- C6: on a well-formed registry, get-or-create is idempotent per key:
a second lookup with the same (sample_rate, channel_count, frame_size)
returns the same handle and constructs nothing (the registry state is
unchanged), while a lookup with a different frame_size returns a distinct
handle. -/
theorem registry_get_or_create_idempotent_per_key
    (st : ManagerState) (lk1 lk2 lk3 : String) (sr ch nf nf2 : Nat)
    (hwf : ManagerWF st) (hne : nf2 ≠ nf) :
    (get_processor (get_processor st lk1 sr ch nf).1 lk2 sr ch nf).2
        = (get_processor st lk1 sr ch nf).2
    ∧ (get_processor (get_processor st lk1 sr ch nf).1 lk2 sr ch nf).1
        = (get_processor st lk1 sr ch nf).1
    ∧ (get_processor (get_processor st lk1 sr ch nf).1 lk3 sr ch nf2).2
        ≠ (get_processor st lk1 sr ch nf).2 := by
  have hfind := get_processor_finds st lk1 sr ch nf
  have hcall := get_processor_hit (get_processor st lk1 sr ch nf).1 lk2 sr ch nf
    (get_processor st lk1 sr ch nf).2 hfind
  have hwf1 := get_processor_wf st lk1 sr ch nf hwf
  have hn1 := get_processor_num_frames st lk1 sr ch nf hwf
  have hn2 := get_processor_num_frames (get_processor st lk1 sr ch nf).1 lk3 sr ch nf2 hwf1
  refine ⟨by rw [hcall], by rw [hcall], fun he => hne ?_⟩
  rw [← hn2, he, hn1]

/-- Witness for C6 on the empty registry with frame sizes 512 and 256. -/
theorem registry_get_or_create_idempotent_per_key_witness :
    (get_processor (get_processor ManagerState.empty "a" 16000 1 512).1 "b" 16000 1 512).2
        = (get_processor ManagerState.empty "a" 16000 1 512).2
    ∧ (get_processor (get_processor ManagerState.empty "a" 16000 1 512).1 "b" 16000 1 512).1
        = (get_processor ManagerState.empty "a" 16000 1 512).1
    ∧ (get_processor (get_processor ManagerState.empty "a" 16000 1 512).1 "c" 16000 1 256).2
        ≠ (get_processor ManagerState.empty "a" 16000 1 512).2 :=
  registry_get_or_create_idempotent_per_key ManagerState.empty "a" "b" "c" 16000 1 512 256
    (by intro p hp; simp [ManagerState.empty] at hp) (by decide)

/-- C9: the registry's cache key omits the license key: when no instance
exists yet for (sample_rate, channel_count, frame_size), a first call with
license key lk1 constructs the handle with lk1, and a second call with a
different license key lk2 returns that same handle (constructed with lk1)
and leaves the registry unchanged, so lk2 is never used. -/
theorem registry_key_omits_license_key
    (st : ManagerState) (lk1 lk2 : String) (sr ch nf : Nat)
    (hmiss : findInstance (sr, ch, nf) st.instances = none) :
    (get_processor (get_processor st lk1 sr ch nf).1 lk2 sr ch nf).2
        = (get_processor st lk1 sr ch nf).2
    ∧ (get_processor st lk1 sr ch nf).2.license_key = lk1
    ∧ (get_processor (get_processor st lk1 sr ch nf).1 lk2 sr ch nf).1
        = (get_processor st lk1 sr ch nf).1 := by
  have hfind := get_processor_finds st lk1 sr ch nf
  have hcall := get_processor_hit (get_processor st lk1 sr ch nf).1 lk2 sr ch nf
    (get_processor st lk1 sr ch nf).2 hfind
  refine ⟨by rw [hcall], ?_, by rw [hcall]⟩
  rw [get_processor_miss st lk1 sr ch nf hmiss]

/-- Witness for C9 on the empty registry with two different license keys. -/
theorem registry_key_omits_license_key_witness :
    (get_processor (get_processor ManagerState.empty "first" 16000 1 512).1
          "second" 16000 1 512).2
        = (get_processor ManagerState.empty "first" 16000 1 512).2
    ∧ (get_processor ManagerState.empty "first" 16000 1 512).2.license_key = "first"
    ∧ (get_processor (get_processor ManagerState.empty "first" 16000 1 512).1
          "second" 16000 1 512).1
        = (get_processor ManagerState.empty "first" 16000 1 512).1 :=
  registry_key_omits_license_key ManagerState.empty "first" "second" 16000 1 512 rfl

/-- C1: for every byte input, if filtering is disabled (the pass-through
flag is false) or the adapter is not running (no engine handle is bound),
`filter` returns exactly the input bytes unchanged. -/
theorem filter_identity_when_disabled_or_stopped
    (proc : List (List ℚ) → List (List ℚ)) (s : FilterState) (audio : List Nat)
    (h : s.filtering = false ∨ s.enhancer = none) :
    (filterBytes proc s audio).2 = audio := by
  rcases h with h | h <;> simp [filterBytes, h]

/-- Witness for C1 at a freshly constructed (not yet started) filter. -/
theorem filter_identity_when_disabled_or_stopped_witness :
    (filterBytes (fun c => c) (initFilter "key" 1 512 1) [7, 0, 1, 2]).2
      = [7, 0, 1, 2] :=
  filter_identity_when_disabled_or_stopped (fun c => c) (initFilter "key" 1 512 1)
    [7, 0, 1, 2] (Or.inr rfl)

/-- C10: when filtering is disabled or the adapter is not running, a
`filter` call leaves the whole adapter state unchanged (in particular the
input samples are not appended to the rolling buffer, and the strength,
channel count and frame size fields are untouched) and returns the input. -/
theorem filter_disabled_leaves_state_unchanged
    (proc : List (List ℚ) → List (List ℚ)) (s : FilterState) (audio : List Nat)
    (h : s.filtering = false ∨ s.enhancer = none) :
    filterBytes proc s audio = (s, audio) := by
  rcases h with h | h <;> simp [filterBytes, h]

/-- Witness for C10 at a disabled filter with a nonempty buffer. -/
theorem filter_disabled_leaves_state_unchanged_witness :
    filterBytes (fun c => c)
        (process_frame (initFilter "key" 1 512 1) (.enable false)) [3, 4]
      = (process_frame (initFilter "key" 1 512 1) (.enable false), [3, 4]) :=
  filter_disabled_leaves_state_unchanged (fun c => c)
    (process_frame (initFilter "key" 1 512 1) (.enable false)) [3, 4] (Or.inl rfl)

/-- C5: the stored enhancement strength is always the input clamped to
[0,1], both at construction and on a settings-update frame carrying
`enhancement_strength`; the stored value always lies in [0,1]; in
particular supplying -1.0 stores 0.0 and supplying 2.0 stores 1.0. -/
theorem enhancement_strength_always_clamped :
    (∀ (lk : String) (ch nf : Nat) (v : ℚ),
        (initFilter lk ch nf v).enhancement_strength = max 0 (min 1 v)
          ∧ 0 ≤ (initFilter lk ch nf v).enhancement_strength
          ∧ (initFilter lk ch nf v).enhancement_strength ≤ 1)
    ∧ (∀ (s : FilterState) (settings : List (String × ℚ)) (v : ℚ),
        settings.lookup "enhancement_strength" = some v →
        (process_frame s (.updateSettings settings)).enhancement_strength
            = max 0 (min 1 v)
          ∧ 0 ≤ (process_frame s (.updateSettings settings)).enhancement_strength
          ∧ (process_frame s (.updateSettings settings)).enhancement_strength ≤ 1)
    ∧ (initFilter "k" 1 512 (-1)).enhancement_strength = 0
    ∧ (initFilter "k" 1 512 2).enhancement_strength = 1
    ∧ (process_frame (initFilter "k" 1 512 1)
        (.updateSettings [("enhancement_strength", -1)])).enhancement_strength = 0
    ∧ (process_frame (initFilter "k" 1 512 1)
        (.updateSettings [("enhancement_strength", 2)])).enhancement_strength = 1 := by
  refine ⟨fun lk ch nf v => ⟨rfl, ?_, ?_⟩, fun s settings v hv => ?_, ?_, ?_, ?_, ?_⟩
  · simp [initFilter]
  · simp [initFilter]
  · refine ⟨by simp [process_frame, hv], by simp [process_frame, hv],
      by simp [process_frame, hv]⟩
  · norm_num [initFilter]
  · norm_num [initFilter]
  · norm_num [process_frame, List.lookup]
  · norm_num [process_frame, List.lookup]

/-- Witness for C5 at a concrete update frame carrying strength 2. -/
theorem enhancement_strength_always_clamped_witness :
    (process_frame (initFilter "key" 2 256 1)
        (.updateSettings [("enhancement_strength", 2)])).enhancement_strength
      = max 0 (min 1 2) :=
  (enhancement_strength_always_clamped.2.1 (initFilter "key" 2 256 1)
    [("enhancement_strength", 2)] 2 rfl).1

theorem clipToInt16_bounds (q : ℚ) :
    -32768 ≤ clipToInt16 q ∧ clipToInt16 q ≤ 32767 := by
  unfold clipToInt16 truncQ
  have hlo : (-32768 : ℚ) ≤ min (max (q * 32768) (-32768)) 32767 :=
    le_min (le_max_right _ _) (by norm_num)
  have hhi : min (max (q * 32768) (-32768)) 32767 ≤ 32767 := min_le_right _ _
  split
  · refine ⟨?_, ?_⟩
    · have h0 : (0 : ℤ) ≤ ⌊min (max (q * 32768) (-32768)) 32767⌋ :=
        Int.floor_nonneg.mpr (by assumption)
      omega
    · have h1 : (⌊min (max (q * 32768) (-32768)) 32767⌋ : ℚ) ≤ 32767 :=
        le_trans (Int.floor_le _) hhi
      exact_mod_cast h1
  · rename_i hneg
    refine ⟨?_, ?_⟩
    · have h1 : (-32768 : ℚ) ≤ (⌈min (max (q * 32768) (-32768)) 32767⌉ : ℚ) :=
        le_trans hlo (Int.le_ceil _)
      exact_mod_cast h1
    · have h0 : ⌈min (max (q * 32768) (-32768)) 32767⌉ ≤ 0 :=
        Int.ceil_le.mpr (by push_cast; exact le_of_lt (not_le.mp hneg))
      omega

theorem decode_encode_int16 (v : Int) (rest : List Nat)
    (hlo : -32768 ≤ v) (hhi : v ≤ 32767) :
    bytesToInt16 (int16ToBytes v ++ rest) = v :: bytesToInt16 rest := by
  show int16OfBytes ((v % 65536).toNat % 256) ((v % 65536).toNat / 256)
      :: bytesToInt16 rest = v :: bytesToInt16 rest
  have hval : int16OfBytes ((v % 65536).toNat % 256) ((v % 65536).toNat / 256) = v := by
    simp only [int16OfBytes]
    split <;> omega
  rw [hval]

theorem bytesToInt16_encodeOutput (flat : List ℚ) :
    bytesToInt16 (encodeOutput flat) = flat.map clipToInt16 := by
  induction flat with
  | nil => rfl
  | cons q rest ih =>
      have hb := clipToInt16_bounds q
      have hsplit : encodeOutput (q :: rest)
          = int16ToBytes (clipToInt16 q) ++ encodeOutput rest := by
        simp [encodeOutput]
      rw [hsplit, decode_encode_int16 _ _ hb.1 hb.2, ih, List.map_cons]

theorem filterBytes_output_cases (proc : List (List ℚ) → List (List ℚ))
    (s : FilterState) (audio : List Nat) :
    (filterBytes proc s audio).2 = audio
    ∨ ∃ flat : List ℚ, (filterBytes proc s audio).2 = encodeOutput flat := by
  by_cases hcond : (!s.filtering || s.enhancer.isNone) = true
  · exact Or.inl (by simp [filterBytes, hcond])
  · by_cases hemp : (chunkLoop proc s.num_frames (appendBuffer s.buffer
        (toChannels s.channels (normalize (bytesToInt16 audio))))).1.isEmpty = true
    · exact Or.inl (by simp [filterBytes, hcond, hemp])
    · exact Or.inr ⟨fromChannels s.channels (concatChunks (chunkLoop proc s.num_frames
        (appendBuffer s.buffer (toChannels s.channels
          (normalize (bytesToInt16 audio))))).1),
        by simp [filterBytes, hcond, hemp]⟩

/-- C7: every `filter` call that emits processed audio emits only 16-bit
samples within the representable int16 range: each output sample is scaled
by 32768 and clamped to [-32768, 32767] before conversion (so no overflow
or wraparound occurs regardless of what the engine wrote), and decoding
the emitted bytes recovers exactly the clamped values. -/
theorem filter_output_within_int16_range :
    (∀ q : ℚ, -32768 ≤ clipToInt16 q ∧ clipToInt16 q ≤ 32767)
    ∧ (∀ flat : List ℚ, bytesToInt16 (encodeOutput flat) = flat.map clipToInt16)
    ∧ (∀ (proc : List (List ℚ) → List (List ℚ)) (s : FilterState) (audio : List Nat),
        (filterBytes proc s audio).2 = audio
        ∨ ∃ flat : List ℚ,
            (filterBytes proc s audio).2 = encodeOutput flat
            ∧ ∀ v ∈ bytesToInt16 (filterBytes proc s audio).2,
                -32768 ≤ v ∧ v ≤ 32767) := by
  refine ⟨clipToInt16_bounds, bytesToInt16_encodeOutput, fun proc s audio => ?_⟩
  rcases filterBytes_output_cases proc s audio with h | ⟨flat, h⟩
  · exact Or.inl h
  · refine Or.inr ⟨flat, h, fun v hv => ?_⟩
    rw [h, bytesToInt16_encodeOutput] at hv
    rcases List.mem_map.mp hv with ⟨q, _, rfl⟩
    exact clipToInt16_bounds q

/-- C2: for every running adapter whose per-channel buffered sample count
is below frame_size before a `filter` call, after the call the per-channel
buffered sample count is again ≥ 0 and strictly below frame_size: the
chunk-extraction loop drains the buffer below the threshold. -/
theorem filter_drains_buffer_below_frame_size
    (proc : List (List ℚ) → List (List ℚ)) (s : FilterState) (audio : List Nat)
    (hrun : s.enhancer.isSome = true) (hlt : cols s.buffer < s.num_frames) :
    0 ≤ cols (filterBytes proc s audio).1.buffer
    ∧ cols (filterBytes proc s audio).1.buffer < s.num_frames := by
  refine ⟨Nat.zero_le _, ?_⟩
  cases he : s.enhancer with
  | none => rw [he] at hrun; simp at hrun
  | some eng =>
      by_cases hf : s.filtering
      · have hnf : 0 < s.num_frames := by omega
        simp only [filterBytes, hf, he, Bool.not_true, Option.isNone_some,
          Bool.or_self, Bool.false_eq_true, if_false]
        split <;> exact chunkLoop_buffer_lt proc s.num_frames hnf _ _ le_rfl
      · have hf0 : s.filtering = false := by
          cases hsf : s.filtering
          · rfl
          · exact absurd hsf hf
        simp only [filterBytes, hf0, Bool.not_false, Bool.true_or, if_true]
        exact hlt

/-- Witness for C2 at a freshly started mono adapter with frame size 512. -/
theorem filter_drains_buffer_below_frame_size_witness :
    0 ≤ cols (filterBytes (fun c => c)
        (start ManagerState.empty (initFilter "k" 1 512 1) 16000).2 [0, 0]).1.buffer
    ∧ cols (filterBytes (fun c => c)
        (start ManagerState.empty (initFilter "k" 1 512 1) 16000).2 [0, 0]).1.buffer
      < (start ManagerState.empty (initFilter "k" 1 512 1) 16000).2.num_frames :=
  filter_drains_buffer_below_frame_size (fun c => c)
    (start ManagerState.empty (initFilter "k" 1 512 1) 16000).2 [0, 0]
    (by decide) (by decide)

/-- C4: on a running, enabled adapter, when the buffered per-channel
sample count after appending the new input is still below frame_size, the
call returns the original input bytes unchanged while the newly appended
samples remain in the rolling buffer. -/
theorem filter_passthrough_when_no_chunk
    (proc : List (List ℚ) → List (List ℚ)) (s : FilterState) (audio : List Nat)
    (hf : s.filtering = true) (hs : s.enhancer.isSome = true)
    (hlt : cols (appendBuffer s.buffer
        (toChannels s.channels (normalize (bytesToInt16 audio)))) < s.num_frames) :
    filterBytes proc s audio =
      ({ s with buffer := (appendBuffer s.buffer
          (toChannels s.channels (normalize (bytesToInt16 audio)))) }, audio) := by
  cases he : s.enhancer with
  | none => rw [he] at hs; simp at hs
  | some eng =>
      simp only [filterBytes, hf, he, Bool.not_true, Option.isNone_some,
        Bool.or_self, Bool.false_eq_true, if_false]
      rw [chunkLoop_no_chunk _ _ _ hlt]
      simp

/-- Witness for C4: one mono sample buffers without producing a chunk. -/
theorem filter_passthrough_when_no_chunk_witness :
    filterBytes (fun c => c)
        (start ManagerState.empty (initFilter "k" 1 512 1) 16000).2 [5, 0] =
      ({ license_key := "k", channels := 1, num_frames := 512,
         enhancement_strength := 1, sample_rate := 16000, filtering := true,
         enhancer := (some (RealTimeL.mk "k" 1 16000 512 0)),
         buffer := (appendBuffer []
           (toChannels 1 (normalize (bytesToInt16 [5, 0])))) }, [5, 0]) :=
  filter_passthrough_when_no_chunk (fun c => c)
    (start ManagerState.empty (initFilter "k" 1 512 1) 16000).2 [5, 0]
    rfl (by decide) (by decide)

/-- C8: under the chunk-extraction loop's guard (buffered column count at
least frame_size, all rows of the uniform buffer equally long), the
extracted slice has exactly frame_size samples per channel and zero
padding never changes chunk contents, so the short-slice padding branch is
unreachable. -/
theorem padding_identity_under_loop_guard
    (num_frames : Nat) (buffer : List (List ℚ))
    (hguard : num_frames ≤ cols buffer)
    (huniform : ∀ row ∈ buffer, row.length = cols buffer) :
    cols (buffer.map (List.take num_frames)) = num_frames
    ∧ ∀ row ∈ buffer,
        (row.take num_frames).length = num_frames
        ∧ padRow num_frames (row.take num_frames) = row.take num_frames := by
  refine ⟨cols_map_take _ _ hguard, fun row hrow => ?_⟩
  have hlen : row.length = cols buffer := huniform row hrow
  have htake : (row.take num_frames).length = num_frames := by
    simp [List.length_take]
    omega
  refine ⟨htake, ?_⟩
  simp [padRow, htake]

/-- Witness for C8 at a one-channel buffer of three samples, frame size 2. -/
theorem padding_identity_under_loop_guard_witness :
    cols ([[0, 0, 0]].map (List.take 2)) = 2
    ∧ ∀ row ∈ ([[0, 0, 0]] : List (List ℚ)),
        (row.take 2).length = 2 ∧ padRow 2 (row.take 2) = row.take 2 :=
  padding_identity_under_loop_guard 2 [[0, 0, 0]] (by decide) (by decide)

theorem length_bytesToInt16 : ∀ l : List Nat, (bytesToInt16 l).length = l.length / 2
  | [] => rfl
  | [_] => by simp [bytesToInt16]
  | b0 :: b1 :: rest => by
      show (int16OfBytes b0 b1 :: bytesToInt16 rest).length = (rest.length + 1 + 1) / 2
      rw [List.length_cons, length_bytesToInt16 rest]
      omega

theorem length_encodeOutput (flat : List ℚ) :
    (encodeOutput flat).length = 2 * flat.length := by
  induction flat with
  | nil => rfl
  | cons q rest ih =>
      have hsplit : encodeOutput (q :: rest)
          = int16ToBytes (clipToInt16 q) ++ encodeOutput rest := by
        simp [encodeOutput]
      rw [hsplit, List.length_append, ih]
      show 2 + 2 * rest.length = 2 * (rest.length + 1)
      omega

theorem shape_singleton {m : List (List ℚ)} {n : Nat} (h : shape m = [n]) :
    ∃ r : List ℚ, m = [r] ∧ r.length = n := by
  cases m with
  | nil => simp [shape] at h
  | cons r rs =>
      cases rs with
      | nil =>
          simp [shape] at h
          exact ⟨r, rfl, h⟩
      | cons r2 rs2 => simp [shape] at h

/-- C3: concrete scenario for a freshly started mono adapter with
frame_size = 512: a first `filter` call with 256 int16 samples (512 bytes)
returns the input unchanged and leaves 256 samples buffered; a second call
with another 256 samples returns exactly one processed 512-sample chunk
(1024 bytes, the encoding of the engine's output on the accumulated
512-sample chunk) and leaves the buffer empty. -/
theorem filter_concrete_scenario_mono_512
    (proc : List (List ℚ) → List (List ℚ))
    (hproc : ∀ c, shape (proc c) = shape c)
    (audio1 audio2 : List Nat)
    (h1 : audio1.length = 512) (h2 : audio2.length = 512) :
    (filterBytes proc
        (start ManagerState.empty (initFilter "lk" 1 512 1) 16000).2 audio1).2 = audio1
    ∧ cols (filterBytes proc
        (start ManagerState.empty (initFilter "lk" 1 512 1) 16000).2 audio1).1.buffer = 256
    ∧ (filterBytes proc (filterBytes proc
          (start ManagerState.empty (initFilter "lk" 1 512 1) 16000).2 audio1).1 audio2).2
        = encodeOutput (fromChannels 1
            (proc [normalize (bytesToInt16 audio1) ++ normalize (bytesToInt16 audio2)]))
    ∧ (filterBytes proc (filterBytes proc
          (start ManagerState.empty (initFilter "lk" 1 512 1) 16000).2 audio1).1 audio2).2.length
        = 1024
    ∧ cols (filterBytes proc (filterBytes proc
          (start ManagerState.empty (initFilter "lk" 1 512 1) 16000).2 audio1).1 audio2).1.buffer
        = 0 := by
  have hd1len : (normalize (bytesToInt16 audio1)).length = 256 := by
    simp only [normalize, List.length_map, length_bytesToInt16, h1]
  have hd2len : (normalize (bytesToInt16 audio2)).length = 256 := by
    simp only [normalize, List.length_map, length_bytesToInt16, h2]
  have hfull : (normalize (bytesToInt16 audio1) ++ normalize (bytesToInt16 audio2)).length
      = 512 := by
    rw [List.length_append, hd1len, hd2len]
  -- the started state, written as a literal
  have hs0 : (start ManagerState.empty (initFilter "lk" 1 512 1) 16000).2
      = FilterState.mk "lk" 1 512 1 16000 true (some (RealTimeL.mk "lk" 1 16000 512 0)) [] :=
    rfl
  rw [hs0]
  -- first call: 256 samples buffer without reaching a chunk boundary
  have hr1 := filter_passthrough_when_no_chunk proc
    (FilterState.mk "lk" 1 512 1 16000 true (some (RealTimeL.mk "lk" 1 16000 512 0)) [])
    audio1 rfl rfl
    (by show (normalize (bytesToInt16 audio1)).length < 512; omega)
  have hr1v : filterBytes proc
      (FilterState.mk "lk" 1 512 1 16000 true (some (RealTimeL.mk "lk" 1 16000 512 0)) [])
      audio1
      = (FilterState.mk "lk" 1 512 1 16000 true (some (RealTimeL.mk "lk" 1 16000 512 0))
          [normalize (bytesToInt16 audio1)], audio1) := hr1
  rw [hr1v]
  refine ⟨rfl, hd1len, ?_⟩
  -- second call: the buffer reaches exactly one full chunk
  obtain ⟨row, hrow, hrowlen⟩ := shape_singleton
    (n := 512) (m := proc [normalize (bytesToInt16 audio1) ++ normalize (bytesToInt16 audio2)])
    (by rw [hproc]; simp [shape, hfull])
  have hbufsz : bufSize [normalize (bytesToInt16 audio1)] = 256 := by
    simp [bufSize, hd1len]
  have happend : appendBuffer [normalize (bytesToInt16 audio1)]
        [normalize (bytesToInt16 audio2)]
      = [normalize (bytesToInt16 audio1) ++ normalize (bytesToInt16 audio2)] := by
    unfold appendBuffer
    rw [if_neg (by rw [hbufsz]; omega)]
    rfl
  have htake1 : (normalize (bytesToInt16 audio1) ++ normalize (bytesToInt16 audio2)).take 512
      = normalize (bytesToInt16 audio1) ++ normalize (bytesToInt16 audio2) := by
    rw [← hfull]
    exact List.take_length _
  have hdrop1 : (normalize (bytesToInt16 audio1) ++ normalize (bytesToInt16 audio2)).drop 512
      = ([] : List ℚ) := by
    rw [← hfull]
    exact List.drop_length _
  have hpad : padRow 512 (normalize (bytesToInt16 audio1) ++ normalize (bytesToInt16 audio2))
      = normalize (bytesToInt16 audio1) ++ normalize (bytesToInt16 audio2) := by
    simp [padRow, hfull]
  have hcolstake : cols (([normalize (bytesToInt16 audio1)
        ++ normalize (bytesToInt16 audio2)]).map (List.take 512)) = 512 :=
    cols_map_take _ _ (by simp [cols, hfull])
  have hcols1 : cols [normalize (bytesToInt16 audio1) ++ normalize (bytesToInt16 audio2)]
      = 512 := by
    simp [cols, hfull]
  have htakerow : row.take 512 = row := by
    rw [← hrowlen]
    exact List.take_length _
  have hstep := chunkLoop_step proc 512
    [normalize (bytesToInt16 audio1) ++ normalize (bytesToInt16 audio2)]
    (by omega) (by simp [cols, hfull])
  have hrest := chunkLoop_no_chunk proc 512 [([] : List ℚ)] (by simp [cols])
  have hcall2 : filterBytes proc
      (FilterState.mk "lk" 1 512 1 16000 true (some (RealTimeL.mk "lk" 1 16000 512 0))
        [normalize (bytesToInt16 audio1)]) audio2
      = (FilterState.mk "lk" 1 512 1 16000 true (some (RealTimeL.mk "lk" 1 16000 512 0))
          [([] : List ℚ)],
         encodeOutput (fromChannels 1
          (proc [normalize (bytesToInt16 audio1) ++ normalize (bytesToInt16 audio2)]))) := by
    simp only [filterBytes]
    rw [show toChannels 1 (normalize (bytesToInt16 audio2))
        = [normalize (bytesToInt16 audio2)] from by simp [toChannels]]
    simp only [hrow]
    rw [happend, hstep]
    simp only [List.map_cons, List.map_nil, htake1, hdrop1, hpad, hcolstake, hcols1, hrow,
      htakerow, hrest]
    simp [concatChunks, hcols1, htakerow]
  rw [hcall2]
  refine ⟨rfl, ?_, rfl⟩
  have hflat : fromChannels 1
      (proc [normalize (bytesToInt16 audio1) ++ normalize (bytesToInt16 audio2)]) = row := by
    rw [hrow]
    simp [fromChannels]
  rw [hflat, length_encodeOutput, hrowlen]

/-- Witness for C3: the identity engine on two 512-byte buffers of zeros. -/
theorem filter_concrete_scenario_mono_512_witness :
    (filterBytes (fun c => c)
        (start ManagerState.empty (initFilter "lk" 1 512 1) 16000).2
        (List.replicate 512 0)).2 = List.replicate 512 0
    ∧ cols (filterBytes (fun c => c)
        (start ManagerState.empty (initFilter "lk" 1 512 1) 16000).2
        (List.replicate 512 0)).1.buffer = 256
    ∧ (filterBytes (fun c => c) (filterBytes (fun c => c)
          (start ManagerState.empty (initFilter "lk" 1 512 1) 16000).2
          (List.replicate 512 0)).1 (List.replicate 512 0)).2
        = encodeOutput (fromChannels 1
            [normalize (bytesToInt16 (List.replicate 512 0))
              ++ normalize (bytesToInt16 (List.replicate 512 0))])
    ∧ (filterBytes (fun c => c) (filterBytes (fun c => c)
          (start ManagerState.empty (initFilter "lk" 1 512 1) 16000).2
          (List.replicate 512 0)).1 (List.replicate 512 0)).2.length = 1024
    ∧ cols (filterBytes (fun c => c) (filterBytes (fun c => c)
          (start ManagerState.empty (initFilter "lk" 1 512 1) 16000).2
          (List.replicate 512 0)).1 (List.replicate 512 0)).1.buffer = 0 :=
  filter_concrete_scenario_mono_512 (fun c => c) (fun _ => rfl)
    (List.replicate 512 0) (List.replicate 512 0)
    (List.length_replicate 512 0) (List.length_replicate 512 0)

end AiCoustics
